import Mathlib

/-!
Verification of the Background Execution & Progress Monitoring core of
`src/python/pyro/gui.py` (classes `SolverThread` and `SolverWidget`).

Numeric model: the Python code computes with IEEE doubles (`float` /
`np.float64`).  We model a double as either a finite rational or NaN
(`EF`).  Arithmetic is exact rational arithmetic with NaN propagation;
comparisons involving NaN are false, as in IEEE 754.  Infinities do not
arise in any claim considered here, so division by zero is mapped to NaN
(the one place the model and numpy could differ — `x/0` with `x ≠ 0` —
is excluded by the hypotheses of every theorem below).  The
transcendental functions `np.log10` and `(· ** 0.5)` are parameters
`lg sq : ℚ → EF` of the model, lifted to `EF` with NaN propagation;
theorems assume only the properties of the real functions they need
(e.g. `lg` is NaN on non-positive arguments, `sq 1 = 1`).
-/

namespace PyroGui

/-- An IEEE double, modelled as a finite rational or NaN. -/
inductive EF where
  | nan : EF
  | fin : ℚ → EF
deriving DecidableEq

namespace EF

/-- Addition with NaN propagation. -/
def add : EF → EF → EF
  | fin a, fin b => fin (a + b)
  | _, _ => nan

/-- Subtraction with NaN propagation. -/
def sub : EF → EF → EF
  | fin a, fin b => fin (a - b)
  | _, _ => nan

/-- Multiplication with NaN propagation. -/
def mul : EF → EF → EF
  | fin a, fin b => fin (a * b)
  | _, _ => nan

/-- Division with NaN propagation; division by zero is mapped to NaN
(no claim below divides by zero). -/
def div : EF → EF → EF
  | fin a, fin b => if b = 0 then nan else fin (a / b)
  | _, _ => nan

/-- IEEE strict less-than: any comparison with NaN is false. -/
def ltb : EF → EF → Bool
  | fin a, fin b => decide (a < b)
  | _, _ => false

/-- IEEE less-or-equal: any comparison with NaN is false. -/
def leb : EF → EF → Bool
  | fin a, fin b => decide (a ≤ b)
  | _, _ => false

/-- Is the value finite (not NaN)? -/
def isFin : EF → Bool
  | fin _ => true
  | nan => false

end EF

/-- Python's builtin `min(x, y)`: returns `y` only when `y < x`, hence
returns `x` (possibly NaN) whenever the comparison is false. -/
def minF (x y : EF) : EF := if EF.ltb y x then y else x

/-- Python's builtin `max(x, y)`: returns `y` only when `x < y`, hence
returns `x` (possibly NaN) whenever the comparison is false. -/
def maxF (x y : EF) : EF := if EF.ltb x y then y else x

/-- The function `np.log10`, lifted to the NaN-extended domain; `lg` gives its value
on finite arguments. -/
def log10F (lg : ℚ → EF) : EF → EF
  | EF.nan => EF.nan
  | EF.fin q => lg q

/-- The power `(· ** 0.5)`, lifted to the NaN-extended domain; `sq` gives its
value on finite arguments. -/
def powHalfF (sq : ℚ → EF) : EF → EF
  | EF.nan => EF.nan
  | EF.fin q => sq q

/-- The constant `self.frac0 = 0.15` (gui.py line 30). -/
def frac0 : EF := EF.fin (3 / 20)

/-- The sentinel `1e9` of the stage-transition test (gui.py line 57). -/
def sentinel : EF := EF.fin 1000000000

/-- The fields of `conf.terminationCondition` read by `updateProgress`:
whether `measurement` is set, and the scalars `tEnd`, `steadyPeriod`,
`tolerance`. -/
structure TermCond where
  hasMeasurement : Bool
  tEnd : EF
  steadyPeriod : EF
  tolerance : EF
deriving DecidableEq

/-- The mutable state read and written by `updateProgress`:
`self.stage`, `self.refCond` and `self.solver.progress`.  In the Python
source `refCond` is an attribute first assigned at the Seeking to
Converging transition; before that assignment it is never read (`stage`
only becomes 1 at the assignment), so its initial value here (NaN) is
unobservable. -/
structure PState where
  stage : ℕ
  refCond : EF
  progress : EF
deriving DecidableEq

/-- Initial state established by `SolverThread.__init__`:
`self.solver.progress = 0.0`, `self.stage = 0`, `refCond` unset. -/
def initPState : PState := ⟨0, EF.nan, EF.fin 0⟩

/-- The value `A = np.log10(TC.tolerance + (errNow - TC.tolerance)/self.refCond)
/ np.log10(TC.tolerance)` (gui.py lines 62-63). -/
def convA (lg : ℚ → EF) (tol errNow rc : EF) : EF :=
  (log10F lg (tol.add ((errNow.sub tol).div rc))).div (log10F lg tol)

/-- The candidate `P = min(self.frac0 + (1 - self.frac0) * A ** 0.5, 1.0)`
(gui.py line 64). -/
def convCandidate (lg sq : ℚ → EF) (tol errNow rc : EF) : EF :=
  minF (frac0.add (((EF.fin 1).sub frac0).mul
    (powHalfF sq (convA lg tol errNow rc)))) (EF.fin 1)

/-- Method `SolverThread.updateProgress` (gui.py lines 49-65).
`errNow = self.solver.terminationCondition`,
`tLast = self.solver.timeVector[-1]`. -/
def updateProgress (lg sq : ℚ → EF) (TC : TermCond) (errNow tLast : EF)
    (s : PState) : PState :=
  if TC.hasMeasurement = false then
    ⟨s.stage, s.refCond, tLast.div TC.tEnd⟩
  else if s.stage = 0 then
    let prog := (frac0.mul tLast).div TC.steadyPeriod
    if EF.ltb errNow sentinel then ⟨1, errNow, prog⟩
    else ⟨s.stage, s.refCond, prog⟩
  else
    ⟨s.stage, s.refCond,
      maxF (convCandidate lg sq TC.tolerance errNow s.refCond) s.progress⟩

/-- One observation per `updateProgress` invocation: the termination
error and the last time-vector entry at that invocation. -/
def runTrace (lg sq : ℚ → EF) (TC : TermCond) (trace : List (EF × EF))
    (s : PState) : PState :=
  trace.foldl (fun st ob => updateProgress lg sq TC ob.1 ob.2 st) s

/-- Concrete stand-in for `np.log10` used in closed evaluations; it is
exact at every point those evaluations touch (`log10` is NaN on
non-positive arguments, `log10 (1/1000) = -3`, `log10 (10^7) = 7`,
`log10 1 = 0`). -/
def lgTest : ℚ → EF := fun q =>
  if q ≤ 0 then EF.nan
  else if q = 1 / 1000 then EF.fin (-3)
  else if q = 10000000 then EF.fin 7
  else if q = 1 then EF.fin 0
  else EF.nan

/-- Concrete stand-in for `(· ** 0.5)` used in closed evaluations; it is
exact at every point those evaluations touch (NaN on negative arguments
as for `np.float64`, `0 ** 0.5 = 0`, `1 ** 0.5 = 1`). -/
def sqTest : ℚ → EF := fun q =>
  if q < 0 then EF.nan
  else if q = 0 then EF.fin 0
  else if q = 1 then EF.fin 1
  else EF.nan

/-- One iteration's worth of solver behaviour as observed by the worker
loop: the value returned by `self.solver.step()` (truthy = done), and
the diagnostic fields `self.solver.terminationCondition` and
`self.solver.timeVector[-1]` as they stand after that step. -/
structure StepObs where
  done : Bool
  errNow : EF
  tLast : EF
deriving DecidableEq

/-- Method `SolverThread.run` (gui.py lines 32-44), the worker loop.  `trace`
lists the successive step outcomes the solver would produce; `i` is the
number of iterations already performed (the source's counter `i` equals
this argument plus one inside the body); `stopObs i` is the value of
the cooperative-stop flag `self._stop` as read by the `while` condition
before iteration `i` (the flag is written asynchronously by `stop()`).
Returns the final state together with the number of `step()` calls
performed.  An exhausted trace means the solver would keep running
beyond the modelled horizon; the state so far is returned. -/
def runLoop (lg sq : ℚ → EF) (TC : TermCond) (stopObs : ℕ → Bool) :
    List StepObs → ℕ → PState → PState × ℕ
  | [], _, s => (s, 0)
  | o :: rest, i, s =>
    if stopObs i then (s, 0)
    else
      let s1 := if (i + 1) % 5 = 0 then updateProgress lg sq TC o.errNow o.tLast s
                else s
      let s2 := if o.done then ⟨s1.stage, s1.refCond, EF.fin 1⟩ else s1
      if o.done then (s2, 1)
      else
        let r := runLoop lg sq TC stopObs rest (i + 1) s2
        (r.1, r.2 + 1)

/-- The solver object as far as the lifecycle controller observes it:
an opaque payload (standing for all solver-owned fields, untouched by
the controller) and the `progress` scalar this core owns. -/
structure SolverObj where
  sid : ℕ
  progress : EF
deriving DecidableEq

/-- The `SolverThread` object as the lifecycle controller observes it:
liveness of the underlying thread plus the fields set by `__init__`. -/
structure ThreadObj where
  alive : Bool
  stopFlag : Bool
  stage : ℕ
  refCond : EF
deriving DecidableEq

/-- Method `SolverThread.stop` (gui.py lines 46-47): sets `self._stop`. -/
def threadStop (t : ThreadObj) : ThreadObj :=
  ⟨t.alive, true, t.stage, t.refCond⟩

/-- The `SolverWidget` state relevant to `run`/`pause`/`stop`:
`self.solver`, `self.solverThread` and whether `updateTimer` runs. -/
structure Widget where
  solver : Option SolverObj
  solverThread : Option ThreadObj
  timerActive : Bool
deriving DecidableEq

/-- The test `self.solverThread is not None and self.solverThread.is_alive()`. -/
def threadIsAlive : Option ThreadObj → Bool
  | none => false
  | some t => t.alive

/-- Externally visible side effects of `SolverWidget.run`. -/
inductive WAction where
  | validateConf
  | setupConf
  | constructSolver
  | initSolver
  | spawnThread
  | startTimer
deriving DecidableEq

/-- The solver produced by `pyro.FlameSolver(self.conf)` followed by
`initialize()`; its payload is arbitrary, its `progress` attribute not
yet set (it is set by `SolverThread.__init__`). -/
def newSolver : SolverObj := ⟨1, EF.nan⟩

/-- Constructor `SolverThread.__init__` followed by `start()` (gui.py lines 20-30,
306): stores the solver, resets `solver.progress` to `0.0`, starts with
`_stop = False`, `stage = 0`, `refCond` unset (modelled NaN), and the
spawned thread is alive. -/
def solverThreadNew (s : SolverObj) : SolverObj × ThreadObj :=
  (⟨s.sid, EF.fin 0⟩, ⟨true, false, 0, EF.nan⟩)

/-- Method `SolverWidget.run` (gui.py lines 294-307): a silent no-op when a
worker thread is alive; otherwise builds the solver when absent, then
spawns a fresh `SolverThread` and starts the update timer. -/
def widgetRun (w : Widget) : Widget × List WAction :=
  if threadIsAlive w.solverThread then (w, [])
  else
    match w.solver with
    | none =>
      let p := solverThreadNew newSolver
      (⟨some p.1, some p.2, true⟩,
        [WAction.validateConf, WAction.setupConf, WAction.constructSolver,
         WAction.initSolver, WAction.spawnThread, WAction.startTimer])
    | some s =>
      let p := solverThreadNew s
      (⟨some p.1, some p.2, true⟩, [WAction.spawnThread, WAction.startTimer])

/-- Method `SolverWidget.pause` (gui.py lines 309-320): no-op without a
thread; with a dead thread it resumes via `run` and restarts the timer;
with a live thread it signals the cooperative stop and halts the
timer. -/
def widgetPause (w : Widget) : Widget × List WAction :=
  match w.solverThread with
  | none => (w, [])
  | some t =>
    if t.alive = false then
      let p := widgetRun w
      (⟨p.1.solver, p.1.solverThread, true⟩, p.2 ++ [WAction.startTimer])
    else
      (⟨w.solver, some (threadStop t), false⟩, [])

/-- Is a published value inside the closed unit interval?  (NaN is
outside.) -/
def inUnit : EF → Bool
  | EF.nan => false
  | EF.fin q => decide (0 ≤ q) && decide (q ≤ 1)

/-- C3: in the Converging stage (`stage = 1`), `updateProgress` sets
`progress` to `max(min(frac0 + (1-frac0) * A^0.5, 1.0), previous)` with
`A = log10(tolerance + (errNow - tolerance)/referenceError) /
log10(tolerance)` and `frac0 = 0.15`; when `errNow` equals the
tolerance (so `A = 1`), the computed candidate equals exactly `1.0`. -/
theorem c3_converging_formula (lg sq : ℚ → EF) (TC : TermCond)
    (errNow t : EF) (s : PState)
    (hm : TC.hasMeasurement = true) (hs : s.stage ≠ 0) :
    (updateProgress lg sq TC errNow t s).progress
      = maxF (convCandidate lg sq TC.tolerance errNow s.refCond) s.progress
    ∧ frac0 = EF.fin (3 / 20)
    ∧ (∀ tolq rc L : ℚ, TC.tolerance = EF.fin tolq → s.refCond = EF.fin rc →
        rc ≠ 0 → errNow = EF.fin tolq → lg tolq = EF.fin L → L ≠ 0 →
        sq 1 = EF.fin 1 →
        convCandidate lg sq TC.tolerance errNow s.refCond = EF.fin 1) := by
  refine ⟨?_, rfl, ?_⟩
  · simp [updateProgress, hm, hs]
  · intro tolq rc L htol hrc hrc0 herr hlg hL hsq
    rw [htol, hrc, herr]
    simp only [convCandidate, convA, EF.sub, EF.div, EF.add, EF.mul, log10F,
      powHalfF, sub_self, hrc0, hL, if_false, zero_div, add_zero, hlg,
      div_self hL, hsq, frac0, minF, EF.ltb]
    norm_num

/-- C3 witness: the scenario of the spec, `tolerance = 1e-3`,
`referenceError = 100`, `errNow = tolerance`, with the concrete
transcendental stand-ins. -/
theorem c3_converging_formula_witness :
    convCandidate lgTest sqTest (EF.fin (1 / 1000)) (EF.fin (1 / 1000))
      (EF.fin 100) = EF.fin 1 :=
  (c3_converging_formula lgTest sqTest
      ⟨true, EF.fin 10, EF.fin 1, EF.fin (1 / 1000)⟩
      (EF.fin (1 / 1000)) (EF.fin 3) ⟨1, EF.fin 100, EF.fin (1 / 2)⟩
      rfl (by decide)).2.2
    (1 / 1000) 100 (-3) rfl rfl (by norm_num) rfl (by norm_num [lgTest])
    (by norm_num) (by norm_num [sqTest])

/-- C5: in the Seeking stage (`stage = 0`) with a measurement
configured, `updateProgress` sets `progress` to
`frac0 * currentTime / steadyPeriod`, and transitions to Converging,
capturing `errNow` as the reference error, exactly when the
termination-error metric compares below the sentinel `1e9`; with
`steadyPeriod = 1`, `currentTime = 0.5` and error not below the
sentinel the result is `0.075` with the stage still Seeking. -/
theorem c5_seeking (lg sq : ℚ → EF) (TC : TermCond) (errNow t : EF)
    (s : PState) (hm : TC.hasMeasurement = true) (hs : s.stage = 0) :
    (updateProgress lg sq TC errNow t s).progress
      = (frac0.mul t).div TC.steadyPeriod
    ∧ (EF.ltb errNow sentinel = true →
        (updateProgress lg sq TC errNow t s).stage = 1
        ∧ (updateProgress lg sq TC errNow t s).refCond = errNow)
    ∧ (EF.ltb errNow sentinel = false →
        (updateProgress lg sq TC errNow t s).stage = 0
        ∧ (updateProgress lg sq TC errNow t s).refCond = s.refCond)
    ∧ (TC.steadyPeriod = EF.fin 1 → t = EF.fin (1 / 2) →
        (updateProgress lg sq TC errNow t s).progress = EF.fin (3 / 40)) := by
  have hm' : TC.hasMeasurement = false → False := by simp [hm]
  refine ⟨?_, ?_, ?_, ?_⟩
  · cases h : EF.ltb errNow sentinel <;> simp [updateProgress, hm, hs, h]
  · intro h; simp [updateProgress, hm, hs, h]
  · intro h; simp [updateProgress, hm, hs, h]
  · intro hsp ht
    cases h : EF.ltb errNow sentinel <;>
      simp [updateProgress, hm, hs, h, hsp, ht, frac0, EF.mul, EF.div] <;>
      norm_num

/-- C5 witness: `steadyPeriod = 1`, `currentTime = 1/2`,
`errNow = 1e9` (not below the sentinel): progress `3/40 = 0.075`,
stage remains Seeking. -/
theorem c5_seeking_witness :
    (updateProgress lgTest sqTest ⟨true, EF.fin 10, EF.fin 1, EF.fin (1 / 1000)⟩
        (EF.fin 1000000000) (EF.fin (1 / 2)) initPState).progress = EF.fin (3 / 40)
    ∧ (updateProgress lgTest sqTest ⟨true, EF.fin 10, EF.fin 1, EF.fin (1 / 1000)⟩
        (EF.fin 1000000000) (EF.fin (1 / 2)) initPState).stage = 0 := by
  have h := c5_seeking lgTest sqTest
    ⟨true, EF.fin 10, EF.fin 1, EF.fin (1 / 1000)⟩ (EF.fin 1000000000)
    (EF.fin (1 / 2)) initPState rfl rfl
  exact ⟨h.2.2.2 rfl rfl, (h.2.2.1 (by decide)).1⟩

/-- C6: when no steady-state measurement is configured,
`updateProgress` sets `progress` to `currentTime / tEnd` with no
staging; for `tEnd = 10` the observation times `0, 2, 5, 10` yield
progress `0, 1/5, 1/2, 1`. -/
theorem c6_fixed_end_time (lg sq : ℚ → EF) (TC : TermCond)
    (errNow t : EF) (s : PState) (hm : TC.hasMeasurement = false) :
    (updateProgress lg sq TC errNow t s).progress = t.div TC.tEnd
    ∧ (updateProgress lg sq TC errNow t s).stage = s.stage
    ∧ (updateProgress lg sq TC errNow t s).refCond = s.refCond
    ∧ (TC.tEnd = EF.fin 10 →
        (updateProgress lg sq TC errNow (EF.fin 0) s).progress = EF.fin 0
        ∧ (updateProgress lg sq TC errNow (EF.fin 2) s).progress = EF.fin (1 / 5)
        ∧ (updateProgress lg sq TC errNow (EF.fin 5) s).progress = EF.fin (1 / 2)
        ∧ (updateProgress lg sq TC errNow (EF.fin 10) s).progress = EF.fin 1) := by
  refine ⟨by simp [updateProgress, hm], by simp [updateProgress, hm],
    by simp [updateProgress, hm], ?_⟩
  intro hE
  refine ⟨?_, ?_, ?_, ?_⟩ <;> norm_num [updateProgress, hm, hE, EF.div]

/-- C6 witness: the spec scenario, `tEnd = 10`, no measurement, at the
concrete observation times. -/
theorem c6_fixed_end_time_witness :
    (updateProgress lgTest sqTest ⟨false, EF.fin 10, EF.fin 1, EF.fin (1 / 1000)⟩
        (EF.fin 0) (EF.fin 2) initPState).progress = EF.fin (1 / 5)
    ∧ (updateProgress lgTest sqTest ⟨false, EF.fin 10, EF.fin 1, EF.fin (1 / 1000)⟩
        (EF.fin 0) (EF.fin 10) initPState).progress = EF.fin 1 := by
  have h := c6_fixed_end_time lgTest sqTest
    ⟨false, EF.fin 10, EF.fin 1, EF.fin (1 / 1000)⟩ (EF.fin 0) (EF.fin 2)
    initPState rfl
  exact ⟨(h.2.2.2 rfl).2.1, (h.2.2.2 rfl).2.2.2⟩

/-- C4: whenever `step()` reports completion, the worker loop sets the
published progress to exactly `1.0` before the loop exits, regardless
of the heuristic's last computed value. -/
theorem c4_done_forces_one (lg sq : ℚ → EF) (TC : TermCond)
    (stopObs : ℕ → Bool) (trace : List StepObs) (i : ℕ) (s : PState)
    (hstop : ∀ j, stopObs j = false)
    (hdone : trace.any (fun o => o.done) = true) :
    (runLoop lg sq TC stopObs trace i s).1.progress = EF.fin 1 := by
  induction trace generalizing i s with
  | nil => simp at hdone
  | cons o rest ih =>
    rw [List.any_cons] at hdone
    cases hd : o.done with
    | true => simp [runLoop, hstop, hd]
    | false =>
      rw [hd] at hdone
      simp only [Bool.false_or] at hdone
      simp only [runLoop, hstop, hd, Bool.false_eq_true, if_false]
      exact ih (i + 1) _ hdone

/-- C4 witness: a two-step run whose second step reports completion. -/
theorem c4_done_forces_one_witness :
    (runLoop lgTest sqTest ⟨false, EF.fin 10, EF.fin 1, EF.fin (1 / 1000)⟩
        (fun _ => false)
        [⟨false, EF.fin 0, EF.fin 2⟩, ⟨true, EF.fin 0, EF.fin 5⟩]
        0 initPState).1.progress = EF.fin 1 :=
  c4_done_forces_one lgTest sqTest
    ⟨false, EF.fin 10, EF.fin 1, EF.fin (1 / 1000)⟩ (fun _ => false)
    [⟨false, EF.fin 0, EF.fin 2⟩, ⟨true, EF.fin 0, EF.fin 5⟩] 0 initPState
    (fun _ => rfl) (by decide)

/-- Helper for C9: if the stop flag reads true at the check preceding
iteration `i + k`, the loop starting at iteration `i` performs at most
`k` further `step()` calls. -/
theorem runLoop_steps_le (lg sq : ℚ → EF) (TC : TermCond)
    (stopObs : ℕ → Bool) :
    ∀ (trace : List StepObs) (i k : ℕ) (s : PState),
      stopObs (i + k) = true → (runLoop lg sq TC stopObs trace i s).2 ≤ k := by
  intro trace
  induction trace with
  | nil => intro i k s _; simp [runLoop]
  | cons o rest ih =>
    intro i k s hk
    cases k with
    | zero =>
      have : stopObs i = true := by simpa using hk
      simp [runLoop, this]
    | succ k' =>
      cases hstop : stopObs i with
      | true => simp [runLoop, hstop]
      | false =>
        cases hd : o.done with
        | true => simp [runLoop, hstop, hd] <;> omega
        | false =>
          have hk' : stopObs (i + 1 + k') = true := by
            have : i + 1 + k' = i + (k' + 1) := by omega
            rw [this]; exact hk
          simp only [runLoop, hstop, hd, Bool.false_eq_true, if_false]
          exact Nat.succ_le_succ (ih (i + 1) k' _ hk')

/-- C9: cancellation is cooperative: the flag is checked once per loop
iteration, so if the flag reads true at check `k` the loop performs at
most `k` `step()` calls in total (hence at most one call after `stop()`
sets the flag mid-iteration); the flag only ever moves to true, and
`stop()` is idempotent. -/
theorem c9_cooperative_stop (lg sq : ℚ → EF) (TC : TermCond)
    (stopObs : ℕ → Bool) (trace : List StepObs) (k : ℕ) (s : PState)
    (hmono : ∀ j, stopObs j = true → stopObs (j + 1) = true)
    (hk : stopObs k = true) :
    (runLoop lg sq TC stopObs trace 0 s).2 ≤ k
    ∧ ∀ t : ThreadObj, threadStop (threadStop t) = threadStop t := by
  constructor
  · have := runLoop_steps_le lg sq TC stopObs trace 0 k s (by simpa using hk)
    exact this
  · intro t; rfl

/-- C9 witness: the flag set from check 2 onward on a four-step trace:
at most two steps run. -/
theorem c9_cooperative_stop_witness :
    (runLoop lgTest sqTest ⟨false, EF.fin 10, EF.fin 1, EF.fin (1 / 1000)⟩
        (fun i => decide (2 ≤ i))
        [⟨false, EF.fin 0, EF.fin 2⟩, ⟨false, EF.fin 0, EF.fin 5⟩,
         ⟨false, EF.fin 0, EF.fin 6⟩, ⟨false, EF.fin 0, EF.fin 7⟩]
        0 initPState).2 ≤ 2
    ∧ ∀ t : ThreadObj, threadStop (threadStop t) = threadStop t :=
  c9_cooperative_stop lgTest sqTest
    ⟨false, EF.fin 10, EF.fin 1, EF.fin (1 / 1000)⟩ (fun i => decide (2 ≤ i))
    [⟨false, EF.fin 0, EF.fin 2⟩, ⟨false, EF.fin 0, EF.fin 5⟩,
     ⟨false, EF.fin 0, EF.fin 6⟩, ⟨false, EF.fin 0, EF.fin 7⟩] 2 initPState
    (fun j h => by
      simp only [decide_eq_true_eq] at h ⊢
      omega)
    (by decide)

/-- C8: `run` while a worker thread is alive is a silent no-op (no
state change, no validation, no solver construction, no spawn); and
after any `run`, an immediately repeated `run` is such a no-op, so two
starts in a row leave exactly one active worker. -/
theorem c8_idempotent_start (w : Widget) (t : ThreadObj)
    (h1 : w.solverThread = some t) (h2 : t.alive = true) :
    widgetRun w = (w, [])
    ∧ ∀ w0 : Widget, widgetRun (widgetRun w0).1 = ((widgetRun w0).1, []) := by
  constructor
  · simp [widgetRun, threadIsAlive, h1, h2]
  · intro w0
    cases ha : threadIsAlive w0.solverThread with
    | true => simp [widgetRun, ha]
    | false =>
      cases hsol : w0.solver <;>
        simp only [widgetRun, ha, hsol, Bool.false_eq_true, if_false] <;>
        simp [threadIsAlive, solverThreadNew, newSolver]

/-- C8 witness: a widget with a live worker thread. -/
theorem c8_idempotent_start_witness :
    widgetRun ⟨some ⟨7, EF.fin (9 / 10)⟩, some ⟨true, false, 0, EF.nan⟩, true⟩
      = (⟨some ⟨7, EF.fin (9 / 10)⟩, some ⟨true, false, 0, EF.nan⟩, true⟩, []) :=
  (c8_idempotent_start
    ⟨some ⟨7, EF.fin (9 / 10)⟩, some ⟨true, false, 0, EF.nan⟩, true⟩
    ⟨true, false, 0, EF.nan⟩ rfl rfl).1

/-- C10: constructing a new `SolverThread` resets the published
progress to `0.0` and the stage to Seeking; on the resume path (an
existing solver, a dead worker) `run` — and `pause`, which calls it —
publishes progress `0.0`, a fresh Seeking stage, a discarded reference
error, the same solver (no reconstruction, no re-validation), and only
spawns a thread and starts the timer. -/
theorem c10_resume_resets (w : Widget) (s : SolverObj) (t : ThreadObj)
    (hsol : w.solver = some s) (hth : w.solverThread = some t)
    (hdead : t.alive = false) :
    widgetRun w
      = (⟨some ⟨s.sid, EF.fin 0⟩, some ⟨true, false, 0, EF.nan⟩, true⟩,
          [WAction.spawnThread, WAction.startTimer])
    ∧ widgetPause w
      = (⟨some ⟨s.sid, EF.fin 0⟩, some ⟨true, false, 0, EF.nan⟩, true⟩,
          [WAction.spawnThread, WAction.startTimer, WAction.startTimer]) := by
  have hrun : widgetRun w
      = (⟨some ⟨s.sid, EF.fin 0⟩, some ⟨true, false, 0, EF.nan⟩, true⟩,
          [WAction.spawnThread, WAction.startTimer]) := by
    simp [widgetRun, threadIsAlive, hth, hdead, hsol, solverThreadNew]
  exact ⟨hrun, by simp [widgetPause, hth, hdead, hrun]⟩

/-- C10 witness: a paused run at progress `0.9`, Converging stage,
reference error `100`: resuming publishes progress `0.0` and a Seeking
stage. -/
theorem c10_resume_resets_witness :
    widgetRun ⟨some ⟨7, EF.fin (9 / 10)⟩, some ⟨false, true, 1, EF.fin 100⟩, false⟩
      = (⟨some ⟨7, EF.fin 0⟩, some ⟨true, false, 0, EF.nan⟩, true⟩,
          [WAction.spawnThread, WAction.startTimer]) :=
  (c10_resume_resets
    ⟨some ⟨7, EF.fin (9 / 10)⟩, some ⟨false, true, 1, EF.fin 100⟩, false⟩
    ⟨7, EF.fin (9 / 10)⟩ ⟨false, true, 1, EF.fin 100⟩ rfl rfl rfl).1

/-- C1 counterexample: in the Converging stage an adversarial NaN
termination error makes the published progress NaN, which is not above
the previously published `0.5`: the monotonicity claim fails for
NaN-inducing diagnostic inputs. -/
theorem c1_nan_breaks_monotonicity :
    (updateProgress lgTest sqTest ⟨true, EF.fin 10, EF.fin 1, EF.fin (1 / 1000)⟩
        EF.nan (EF.fin 3) ⟨1, EF.fin 100, EF.fin (1 / 2)⟩).progress = EF.nan
    ∧ EF.leb (EF.fin (1 / 2))
        (updateProgress lgTest sqTest ⟨true, EF.fin 10, EF.fin 1, EF.fin (1 / 1000)⟩
          EF.nan (EF.fin 3) ⟨1, EF.fin 100, EF.fin (1 / 2)⟩).progress = false := by
  norm_num [updateProgress, EF.ltb, EF.leb, sentinel, convCandidate, convA,
    EF.add, EF.sub, EF.mul, EF.div, log10F, powHalfF, lgTest, sqTest, minF,
    maxF, frac0]

/-- C2 counterexample: in the fixed-end-time branch, a current time of
`20` past `tEnd = 10` publishes progress `2`, outside `[0, 1]`. -/
theorem c2_exceeds_one_counterexample :
    (updateProgress lgTest sqTest ⟨false, EF.fin 10, EF.fin 1, EF.fin (1 / 1000)⟩
        (EF.fin 0) (EF.fin 20) initPState).progress = EF.fin 2
    ∧ inUnit (updateProgress lgTest sqTest
        ⟨false, EF.fin 10, EF.fin 1, EF.fin (1 / 1000)⟩
        (EF.fin 0) (EF.fin 20) initPState).progress = false := by
  norm_num [updateProgress, initPState, inUnit, EF.div]

/-- C7: the code does not clamp or guard `A` before the square root.
At a reachable Converging-stage input (`tolerance = 1e-3`, reference
error `100`, `errNow = 1e9 - 99/1000`, making the `log10` argument
`1e7` and `A = 7 / (-3) < 0`) the power produces NaN and the published
progress is NaN, contradicting the claimed guard. -/
theorem c7_nan_published_at_failing_input :
    (updateProgress lgTest sqTest ⟨true, EF.fin 10, EF.fin 1, EF.fin (1 / 1000)⟩
        (EF.fin (1000000000 - 99 / 1000)) (EF.fin 3)
        ⟨1, EF.fin 100, EF.fin (1 / 2)⟩).progress = EF.nan := by
  norm_num [updateProgress, EF.ltb, sentinel, convCandidate, convA, EF.add,
    EF.sub, EF.mul, EF.div, log10F, powHalfF, lgTest, sqTest, minF, maxF,
    frac0]

/-- C2 as amended: a single `updateProgress` invocation publishes a
value in `[0, 1]` provided the previously published value is in
`[0, 1]`, the current time is finite and within the branch's window
(`0 ≤ t ≤ tEnd` in the fixed-end-time branch; `0 ≤ frac0 * t ≤
steadyPeriod` in Seeking), and in the Converging branch the easing term
`A ** 0.5` evaluates to a finite nonnegative value. -/
theorem c2_bounded_amended (lg sq : ℚ → EF) (TC : TermCond) (errNow : EF)
    (tq : ℚ) (s : PState)
    (hprev : inUnit s.progress = true)
    (hfix : TC.hasMeasurement = false →
      ∃ e : ℚ, TC.tEnd = EF.fin e ∧ 0 < e ∧ 0 ≤ tq ∧ tq ≤ e)
    (hseek : TC.hasMeasurement = true → s.stage = 0 →
      ∃ p : ℚ, TC.steadyPeriod = EF.fin p ∧ 0 < p ∧ 0 ≤ tq ∧ 3 / 20 * tq ≤ p)
    (hconv : TC.hasMeasurement = true → s.stage ≠ 0 →
      ∃ r : ℚ, powHalfF sq (convA lg TC.tolerance errNow s.refCond) = EF.fin r
        ∧ 0 ≤ r) :
    inUnit (updateProgress lg sq TC errNow (EF.fin tq) s).progress = true := by
  cases hm : TC.hasMeasurement with
  | false =>
    obtain ⟨e, hE, he, ht0, hte⟩ := hfix hm
    have hne : e ≠ 0 := ne_of_gt he
    simp only [updateProgress, hm, if_true, hE, EF.div, hne, if_false,
      inUnit, Bool.and_eq_true, decide_eq_true_eq]
    exact ⟨div_nonneg ht0 he.le, (div_le_one he).mpr hte⟩
  | true =>
    by_cases hs : s.stage = 0
    · obtain ⟨p, hP, hp, ht0, htp⟩ := hseek hm hs
      have hne : p ≠ 0 := ne_of_gt hp
      have hb : (0 ≤ 3 / 20 * tq / p ∧ 3 / 20 * tq / p ≤ 1) :=
        ⟨div_nonneg (by linarith) hp.le, (div_le_one hp).mpr htp⟩
      cases hlt : EF.ltb errNow sentinel <;>
        simp [updateProgress, hm, hs, hlt, frac0, EF.mul, hP, EF.div, hne,
          inUnit, Bool.and_eq_true, decide_eq_true_eq] <;>
        constructor <;> linarith [hb.1, hb.2]
    · obtain ⟨r, hr, hr0⟩ := hconv hm hs
      obtain ⟨w, hw, hw0, hw1⟩ : ∃ w, s.progress = EF.fin w ∧ 0 ≤ w ∧ w ≤ 1 := by
        cases hpr : s.progress with
        | nan => rw [hpr] at hprev; simp [inUnit] at hprev
        | fin w =>
          rw [hpr] at hprev
          simp only [inUnit, Bool.and_eq_true, decide_eq_true_eq] at hprev
          exact ⟨w, rfl, hprev.1, hprev.2⟩
      simp only [updateProgress, hm, Bool.true_eq_false, if_false, hs,
        convCandidate, hr, frac0, EF.sub, EF.mul, EF.add, minF, maxF,
        EF.ltb, hw]
      split_ifs with h1 h2 h2 <;>
        simp only [inUnit, Bool.and_eq_true, decide_eq_true_eq,
          decide_eq_true_eq] at h1 h2 ⊢ <;>
        constructor <;> linarith

/-- C2 witness: the fixed-end-time branch at `t = 2`, `tEnd = 10` from
a fresh run: the published `0.2` lies in the unit interval. -/
theorem c2_bounded_amended_witness :
    inUnit (updateProgress lgTest sqTest
        ⟨false, EF.fin 10, EF.fin 1, EF.fin (1 / 1000)⟩
        (EF.fin 0) (EF.fin 2) initPState).progress = true :=
  c2_bounded_amended lgTest sqTest
    ⟨false, EF.fin 10, EF.fin 1, EF.fin (1 / 1000)⟩ (EF.fin 0) 2 initPState
    (by norm_num [initPState, inUnit])
    (fun _ => ⟨10, rfl, by norm_num, by norm_num, by norm_num⟩)
    (fun h => absurd h (by norm_num))
    (fun h => absurd h (by norm_num))

/-- A trace of `updateProgress` invocations: at each invocation the
termination error (possibly NaN) and the finite last entry of the time
vector. -/
def liftTrace (trace : List (EF × ℚ)) : List (EF × EF) :=
  trace.map (fun ob => (ob.1, EF.fin ob.2))

/-- The time observations of a trace are non-decreasing, starting from
`q0`. -/
def timesMonoB : ℚ → List (EF × ℚ) → Bool
  | _, [] => true
  | q0, ob :: rest => decide (q0 ≤ ob.2) && timesMonoB ob.2 rest

/-- Every Converging-branch candidate the trace can give rise to
evaluates to a finite value: for every error `e1` of the trace used as
`errNow` and every error `e2` of the trace that compares below the
sentinel (hence could have been captured as the reference error), the
candidate is finite. -/
def convOKB (lg sq : ℚ → EF) (tol : EF) (trace : List (EF × ℚ)) : Bool :=
  trace.all fun ob1 => trace.all fun ob2 =>
    !(EF.ltb ob2.1 sentinel) || EF.isFin (convCandidate lg sq tol ob1.1 ob2.1)

/-- Invariant maintained by `updateProgress` along a run whose
observations come from the trace `L`: `lastq` is the last time
observation (initially `0`), the published progress has the branch's
closed form while no transition happened, and after the transition the
progress is finite and the reference error is a sub-sentinel error
drawn from `L`. -/
def invState (TC : TermCond) (L : List (EF × ℚ)) (lastq : ℚ)
    (s : PState) : Prop :=
  0 ≤ lastq
  ∧ (TC.hasMeasurement = false → s.progress = (EF.fin lastq).div TC.tEnd)
  ∧ (TC.hasMeasurement = true → s.stage = 0 →
      s.progress = (frac0.mul (EF.fin lastq)).div TC.steadyPeriod)
  ∧ (TC.hasMeasurement = true → s.stage ≠ 0 →
      (∃ v : ℚ, s.progress = EF.fin v)
      ∧ ∃ er, er ∈ L.map Prod.fst ∧ EF.ltb er sentinel = true
          ∧ s.refCond = er)

/-- Under the invariant the published progress is finite. -/
theorem invState_progress_fin (TC : TermCond) (L : List (EF × ℚ))
    (lastq : ℚ) (s : PState) (e w : ℚ)
    (hE : TC.tEnd = EF.fin e) (he : 0 < e)
    (hP : TC.steadyPeriod = EF.fin w) (hp : 0 < w)
    (hinv : invState TC L lastq s) : ∃ v : ℚ, s.progress = EF.fin v := by
  obtain ⟨-, hfix, hseek, hcv⟩ := hinv
  cases hm : TC.hasMeasurement with
  | false =>
    refine ⟨lastq / e, ?_⟩
    rw [hfix hm, hE]
    simp [EF.div, ne_of_gt he]
  | true =>
    by_cases hs : s.stage = 0
    · refine ⟨3 / 20 * lastq / w, ?_⟩
      rw [hseek hm hs, hP]
      simp [frac0, EF.mul, EF.div, ne_of_gt hp]
    · exact (hcv hm hs).1

/-- One `updateProgress` invocation on a valid observation neither
decreases the published progress nor breaks the invariant. -/
theorem updateProgress_mono_step (lg sq : ℚ → EF) (TC : TermCond)
    (L : List (EF × ℚ)) (e w : ℚ)
    (hE : TC.tEnd = EF.fin e) (he : 0 < e)
    (hP : TC.steadyPeriod = EF.fin w) (hp : 0 < w)
    (hcvL : TC.hasMeasurement = true → convOKB lg sq TC.tolerance L = true)
    (s : PState) (lastq : ℚ) (ob : EF × ℚ)
    (hmem : ob ∈ L) (hq : lastq ≤ ob.2)
    (hinv : invState TC L lastq s) :
    EF.leb s.progress
        (updateProgress lg sq TC ob.1 (EF.fin ob.2) s).progress = true
    ∧ invState TC L ob.2 (updateProgress lg sq TC ob.1 (EF.fin ob.2) s) := by
  obtain ⟨hl0, hfix, hseek, hcv⟩ := hinv
  have hq0 : 0 ≤ ob.2 := le_trans hl0 hq
  cases hm : TC.hasMeasurement with
  | false =>
    have hne : e ≠ 0 := ne_of_gt he
    constructor
    · rw [hfix hm, hE]
      simp only [updateProgress, hm, if_true, hE, EF.div, hne, if_false,
        EF.leb, decide_eq_true_eq]
      exact div_le_div_of_nonneg_right hq he.le
    · refine ⟨hq0, ?_, ?_, ?_⟩
      · intro _; simp [updateProgress, hm]
      · intro h _; rw [h] at hm; cases hm
      · intro h _; rw [h] at hm; cases hm
  | true =>
    by_cases hs : s.stage = 0
    · have hne : w ≠ 0 := ne_of_gt hp
      have hle : 3 / 20 * lastq / w ≤ 3 / 20 * ob.2 / w :=
        div_le_div_of_nonneg_right (by linarith) hp.le
      constructor
      · rw [hseek hm hs, hP]
        cases hlt : EF.ltb ob.1 sentinel <;>
          simp only [updateProgress, hm, Bool.true_eq_false, if_false, hs,
            if_true, hlt, frac0, EF.mul, hP, EF.div, hne, EF.leb,
            Bool.false_eq_true, decide_eq_true_eq] <;>
          exact hle
      · cases hlt : EF.ltb ob.1 sentinel with
        | true =>
          refine ⟨hq0, ?_, ?_, ?_⟩
          · intro h; rw [h] at hm; cases hm
          · intro _ h1
            simp only [updateProgress, hm, Bool.true_eq_false, if_false, hs,
              if_true, hlt] at h1
            cases h1
          · intro _ _
            simp only [updateProgress, hm, Bool.true_eq_false, if_false, hs,
              if_true, hlt]
            refine ⟨⟨3 / 20 * ob.2 / w, ?_⟩,
              ob.1, List.mem_map_of_mem Prod.fst hmem, hlt, rfl⟩
            rw [hP]; simp [frac0, EF.mul, EF.div, hne]
        | false =>
          refine ⟨hq0, ?_, ?_, ?_⟩
          · intro h; rw [h] at hm; cases hm
          · intro _ _
            simp [updateProgress, hm, hs, hlt]
          · intro _ h1
            simp only [updateProgress, hm, Bool.true_eq_false, if_false, hs,
              if_true, hlt, Bool.false_eq_true] at h1
            exact absurd rfl h1
    · obtain ⟨⟨v, hv⟩, er, herL, herlt, hrc⟩ := hcv hm hs
      obtain ⟨ob2, hob2L, hob2⟩ := List.mem_map.mp herL
      have hall := hcvL hm
      simp only [convOKB, List.all_eq_true] at hall
      have hfin := hall ob hmem ob2 hob2L
      rw [hob2, herlt] at hfin
      simp only [Bool.not_true, Bool.false_or] at hfin
      obtain ⟨c, hc⟩ : ∃ c : ℚ,
          convCandidate lg sq TC.tolerance ob.1 er = EF.fin c := by
        cases hcc : convCandidate lg sq TC.tolerance ob.1 er with
        | nan => rw [hcc] at hfin; cases hfin
        | fin c => exact ⟨c, rfl⟩
      have hprog : (updateProgress lg sq TC ob.1 (EF.fin ob.2) s).progress
          = maxF (EF.fin c) (EF.fin v) := by
        simp only [updateProgress, hm, Bool.true_eq_false, if_false, hs,
          if_true, ite_self]
        rw [hrc, hc, hv]
      constructor
      · rw [hv, hprog]
        cases hcmp : EF.ltb (EF.fin c) (EF.fin v) with
        | false =>
          simp only [maxF, hcmp, Bool.false_eq_true, if_false, EF.leb,
            decide_eq_true_eq]
          simp only [EF.ltb] at hcmp
          rw [decide_eq_false_iff_not] at hcmp
          exact le_of_not_lt hcmp
        | true => simp [maxF, hcmp, EF.leb]
      · refine ⟨hq0, ?_, ?_, ?_⟩
        · intro h; rw [h] at hm; cases hm
        · intro _ h1
          simp only [updateProgress, hm, Bool.true_eq_false, if_false, hs,
            if_true] at h1
        · intro _ _
          have hst : (updateProgress lg sq TC ob.1 (EF.fin ob.2) s).stage
              = s.stage := by
            simp [updateProgress, hm, hs]
          have hrf : (updateProgress lg sq TC ob.1 (EF.fin ob.2) s).refCond
              = s.refCond := by
            simp [updateProgress, hm, hs]
          refine ⟨?_, er, herL, herlt, by rw [hrf]; exact hrc⟩
          rw [hprog]
          cases hcmp : EF.ltb (EF.fin c) (EF.fin v) with
          | true => exact ⟨v, by simp [maxF, hcmp]⟩
          | false => exact ⟨c, by simp [maxF, hcmp]⟩

/-- Rolling `updateProgress_mono_step` along a trace: successive
prefixes of the trace publish non-decreasing progress values. -/
theorem runTrace_mono_aux (lg sq : ℚ → EF) (TC : TermCond)
    (L : List (EF × ℚ)) (e w : ℚ)
    (hE : TC.tEnd = EF.fin e) (he : 0 < e)
    (hP : TC.steadyPeriod = EF.fin w) (hp : 0 < w)
    (hcvL : TC.hasMeasurement = true → convOKB lg sq TC.tolerance L = true) :
    ∀ (trace : List (EF × ℚ)) (lastq : ℚ) (s : PState),
      (∀ ob ∈ trace, ob ∈ L) → timesMonoB lastq trace = true →
      invState TC L lastq s →
      ∀ n : ℕ,
        EF.leb (runTrace lg sq TC (liftTrace (trace.take n)) s).progress
          (runTrace lg sq TC (liftTrace (trace.take (n + 1))) s).progress
          = true := by
  intro trace
  induction trace with
  | nil =>
    intro lastq s _ _ hinv n
    obtain ⟨v, hv⟩ := invState_progress_fin TC L lastq s e w hE he hP hp hinv
    simp [runTrace, liftTrace, hv, EF.leb]
  | cons ob rest ih =>
    intro lastq s hsub hmono hinv n
    simp only [timesMonoB, Bool.and_eq_true, decide_eq_true_eq] at hmono
    obtain ⟨hq, hmono'⟩ := hmono
    have hstep := updateProgress_mono_step lg sq TC L e w hE he hP hp hcvL
      s lastq ob (hsub ob (List.mem_cons_self ob rest)) hq hinv
    cases n with
    | zero =>
      simpa [runTrace, liftTrace] using hstep.1
    | succ n =>
      have hsub' : ∀ x ∈ rest, x ∈ L :=
        fun x hx => hsub x (List.mem_cons_of_mem ob hx)
      have := ih ob.2 (updateProgress lg sq TC ob.1 (EF.fin ob.2) s)
        hsub' hmono' hstep.2 n
      simpa [runTrace, liftTrace] using this

/-- C1 as amended: for any sequence of `updateProgress` invocations
within one run starting from the freshly initialised state, the
published progress is non-decreasing, provided the diagnostic inputs
are valid: the time observations are finite, nonnegative and
non-decreasing, `tEnd` and `steadyPeriod` are positive finite
configuration values, and (when a measurement is configured) every
Converging-branch candidate the trace can give rise to evaluates to a
finite value.  (Adversarial NaN-inducing inputs falsify the original
claim: see the counterexample, where a NaN termination error makes the
Converging branch publish NaN.) -/
theorem c1_monotone_valid_inputs (lg sq : ℚ → EF) (TC : TermCond)
    (e w : ℚ) (trace : List (EF × ℚ)) (n : ℕ)
    (hE : TC.tEnd = EF.fin e) (he : 0 < e)
    (hP : TC.steadyPeriod = EF.fin w) (hp : 0 < w)
    (hcv : TC.hasMeasurement = true → convOKB lg sq TC.tolerance trace = true)
    (hmono : timesMonoB 0 trace = true) :
    EF.leb (runTrace lg sq TC (liftTrace (trace.take n)) initPState).progress
      (runTrace lg sq TC (liftTrace (trace.take (n + 1))) initPState).progress
      = true := by
  refine runTrace_mono_aux lg sq TC trace e w hE he hP hp hcv trace 0
    initPState (fun ob h => h) hmono ⟨le_refl 0, ?_, ?_, ?_⟩ n
  · intro _
    rw [hE]
    simp [initPState, EF.div, ne_of_gt he]
  · intro _ _
    rw [hP]
    simp [initPState, frac0, EF.mul, EF.div, ne_of_gt hp]
  · intro _ hst
    exact absurd rfl hst

/-- C1 witness: a fixed-end-time run (`tEnd = 10`) observed at times
`2` then `5`: the first two published values are ordered. -/
theorem c1_monotone_valid_inputs_witness :
    EF.leb (runTrace lgTest sqTest
        ⟨false, EF.fin 10, EF.fin 1, EF.fin (1 / 1000)⟩
        (liftTrace ([(EF.fin 2000000000, 2), (EF.fin 0, 5)].take 1))
        initPState).progress
      (runTrace lgTest sqTest
        ⟨false, EF.fin 10, EF.fin 1, EF.fin (1 / 1000)⟩
        (liftTrace ([(EF.fin 2000000000, 2), (EF.fin 0, 5)].take 2))
        initPState).progress = true :=
  c1_monotone_valid_inputs lgTest sqTest
    ⟨false, EF.fin 10, EF.fin 1, EF.fin (1 / 1000)⟩ 10 1
    [(EF.fin 2000000000, 2), (EF.fin 0, 5)] 1 rfl (by norm_num) rfl
    (by norm_num) (fun h => absurd h (by norm_num))
    (by norm_num [timesMonoB])

end PyroGui
